import Mathlib

/-!
Shallow embedding of `src/pl_curve.py` (pandas pipeline computing
Pareto-Lorenz curves and Gini coefficients).

Modelling conventions:
* Python floats are modelled as exact rationals (`ℚ`); float literals such
  as `0.9999` become the corresponding exact rational.
* A pandas `DataFrame` read from the input TSV is a `Table`: a list of
  sample-column names plus a list of rows, each row a bin identifier with
  its per-sample values.  Bin labels and sample names are assumed distinct
  (duplicate labels would change the meaning of `df.drop` / `df.loc`).
* The per-sample single-column frames produced by `sort_bins` are `Frame`s:
  the data column (`abund`, with its bin labels `bins`) plus the two
  columns the pipeline appends later, each `Option` until appended.
* Fallible code is modelled with `Except PyErr`: `sys.exit(1)` after a
  failed validation, the `ZeroDivisionError` raised by
  `len(col) / (len(col) - 1)` when a frame has exactly one row, and the
  `KeyError` that a missing `Cum Rel Abund` column would raise.
* numpy float results that are NaN/inf (mean of an empty array, division
  by a zero mean) are modelled as `none : Option ℚ`; they are values, not
  exceptions, so they do not abort the run.
* `make_graph` only renders the plot (pure I/O); it reads the frames and
  is dropped from the embedding of `run`.
-/

namespace PLCurve

/-- One row of the abundance table: a bin identifier and its value in each
sample column. -/
structure TRow where
  bin : String
  vals : List ℚ
deriving DecidableEq

/-- The abundance table as read from the TSV file: the sample column names
and the rows, in file order. -/
structure Table where
  names : List String
  rows : List TRow
deriving DecidableEq

/-- A per-sample single-column frame as produced by `sort_bins`, with the
two columns the pipeline appends later (`Cum Rel Abund`, `Cum Prop TRFs`)
recorded as `Option` fields, `none` while the column is absent. -/
structure Frame where
  name : String
  bins : List String
  abund : List ℚ
  cra : Option (List ℚ)
  cpt : Option (List ℚ)
deriving DecidableEq

/-- One row of the coefficients table built by `make_gini_file`.  `gini`
and `corrected` are `Option ℚ`, `none` standing for a numpy NaN. -/
structure GiniRow where
  title : String
  gini : Option ℚ
  corrected : Option ℚ
  n : ℕ
deriving DecidableEq

/-- The ways the Python code can abort: `sys.exit(1)` on validation
failure, `ZeroDivisionError` from `len(col)/(len(col)-1)`, and the
`KeyError` a missing column lookup would raise. -/
inductive PyErr where
  | validationExit
  | zeroDivision
  | keyError
deriving DecidableEq

/-- Error-propagating map over a list: the loop stops at the first
iteration that raises, as the Python `for` loops do. -/
def mapExcept (f : α → Except PyErr β) : List α → Except PyErr (List β)
  | [] => Except.ok []
  | a :: rest =>
    match f a with
    | Except.error e => Except.error e
    | Except.ok b =>
      match mapExcept f rest with
      | Except.error e => Except.error e
      | Except.ok bs => Except.ok (b :: bs)

/-- Sum of sample column `j` of the table (`sum(df.loc[:, col])`). -/
def colSum (t : Table) (j : ℕ) : ℚ :=
  (t.rows.map fun r => r.vals.getD j 0).sum

/-- Embedding of `check_columns` (pl_curve.py lines 32-44): `True` iff no
column total is below `0.9999` or above `1.0001`. -/
def check_columns (t : Table) : Bool :=
  (List.range t.names.length).all fun j =>
    if colSum t j < 9999/10000 ∨ colSum t j > 10001/10000 then false else true

/-- Sum of one row across all sample columns (`sum(df.loc[row_index])`). -/
def rowSum (r : TRow) : ℚ := r.vals.sum

/-- Embedding of `remove_zeros` (lines 47-60): drops every row whose sum
across the samples is exactly `0`.  The Python loop iterates over the
original index and drops labels one at a time; with distinct bin labels
this is a filter keeping the rows of nonzero sum, in original order. -/
def remove_zeros (t : Table) : Table :=
  { t with rows := t.rows.filter fun r => !decide (rowSum r = 0) }

/-- Insert a labelled value into a descending-sorted list, before the
first element that is `≤` it (so equal values keep their original
relative order). -/
def insertDesc (a : String × ℚ) : List (String × ℚ) → List (String × ℚ)
  | [] => [a]
  | b :: rest => if b.2 ≤ a.2 then a :: b :: rest else b :: insertDesc a rest

/-- Descending sort of a labelled column.  The source calls
`sort_values(ascending=False)` whose default `kind` is quicksort; the
order of equal values there is implementation-defined, and this embedding
determinizes it as a stable sort (equal values in original order). -/
def sortDesc (l : List (String × ℚ)) : List (String × ℚ) :=
  l.foldr insertDesc []

/-- Column `j` of the table as (bin label, value) pairs
(`df.loc[:, col]`). -/
def colPairs (t : Table) (j : ℕ) : List (String × ℚ) :=
  t.rows.map fun r => (r.bin, r.vals.getD j 0)

/-- The single-sample frame `sort_bins` builds for column `j`:
`df.loc[:, col].sort_values(ascending=False).to_frame()`. -/
def frameOf (t : Table) (j : ℕ) : Frame :=
  { name := t.names.getD j ""
    bins := (sortDesc (colPairs t j)).map Prod.fst
    abund := (sortDesc (colPairs t j)).map Prod.snd
    cra := none
    cpt := none }

/-- Embedding of `sort_bins` (lines 63-78): one descending-sorted frame
per sample column. -/
def sort_bins (t : Table) : List Frame :=
  (List.range t.names.length).map (frameOf t)

/-- The running-total loop of `calculate_cumulative_relative_abundance`:
`acc` is the previous cumulative value (`0` before the first row). -/
def cumRelAbundAux (acc : ℚ) : List ℚ → List ℚ
  | [] => []
  | a :: rest => (acc + a) :: cumRelAbundAux (acc + a) rest

/-- The `cum_rel_abund` list built for one frame: entry `0` is
`abund[0]`, entry `i` is `abund[i] + cum[i-1]`. -/
def cumRelAbundList (l : List ℚ) : List ℚ := cumRelAbundAux 0 l

/-- The in-place column assignment
`sample['Cum Rel Abund'] = cum_rel_abund` applied to one frame. -/
def craStage (f : Frame) : Frame :=
  { f with cra := some (cumRelAbundList f.abund) }

/-- Embedding of `calculate_cumulative_relative_abundance` (lines 81-104). -/
def calculate_cumulative_relative_abundance (samples : List Frame) : List Frame :=
  samples.map craStage

/-- Number of leading rows the truncation loop of
`remove_cumulative_abundance_over_one` keeps: everything up to and
including the first cumulative value strictly greater than `0.999999`;
all rows when no value exceeds it. -/
def keepCount : List ℚ → ℕ
  | [] => 0
  | v :: rest => if (999999/1000000 : ℚ) < v then 1 else 1 + keepCount rest

/-- One iteration of `remove_cumulative_abundance_over_one`: reads the
`Cum Rel Abund` column (raising `KeyError` if absent, which `run` never
hits) and drops every row after the first value over the threshold.
`df.drop` returns new frames, so the input frame is not mutated. -/
def truncFrame (col : Frame) : Except PyErr Frame :=
  match col.cra with
  | none => Except.error PyErr.keyError
  | some c =>
    let k := keepCount c
    Except.ok { col with
      bins := col.bins.take k
      abund := col.abund.take k
      cra := some (c.take k)
      cpt := col.cpt.map fun l => l.take k }

/-- Embedding of `remove_cumulative_abundance_over_one` (lines 129-159). -/
def remove_cumulative_abundance_over_one (samples : List Frame) : Except PyErr (List Frame) :=
  mapExcept truncFrame samples

/-- The `cum_prop_trfs` list for a frame of `m` rows: `(i+1)/m` at
`0`-indexed position `i`. -/
def cumPropTrfsList (m : ℕ) : List ℚ :=
  (List.range m).map fun (i : ℕ) => ((i : ℚ) + 1) / (m : ℚ)

/-- The in-place column assignment
`sample['Cum Prop TRFs'] = cum_prop_trfs` applied to one frame. -/
def cptStage (f : Frame) : Frame :=
  { f with cpt := some (cumPropTrfsList f.abund.length) }

/-- Embedding of `calculate_cumulative_prop_trf` (lines 107-126). -/
def calculate_cumulative_prop_trf (samples : List Frame) : List Frame :=
  samples.map cptStage

/-- Embedding of `calculate_gini` (lines 9-29): half the mean absolute
pairwise difference divided by the mean.  `none` models the numpy NaN/inf
produced for an empty array or a zero mean (float division by zero warns,
it does not raise). -/
def calculate_gini (x : List ℚ) : Option ℚ :=
  if x.length = 0 then none
  else
    let n : ℚ := x.length
    let mad : ℚ := ((x.map fun a => (x.map fun b => |a - b|).sum).sum) / (n * n)
    let mean : ℚ := x.sum / n
    if mean = 0 then none else some ((1/2) * (mad / mean))

/-- One iteration of the loop in `make_gini_file`: raises
`ZeroDivisionError` from the integer division `len(col)/(len(col)-1)`
when the frame has exactly one row, otherwise records the coefficients
and the row count. -/
def giniRowOf (col : Frame) : Except PyErr GiniRow :=
  if col.abund.length = 1 then Except.error PyErr.zeroDivision
  else
    let g := calculate_gini col.abund
    Except.ok
      { title := col.name
        gini := g
        corrected := g.map fun v =>
          v * ((col.abund.length : ℚ) / ((col.abund.length : ℚ) - 1))
        n := col.abund.length }

/-- Embedding of `make_gini_file` (lines 185-215): the coefficients
table, one row per sample in sample order (titles assumed distinct, as
`gini_df.loc[title]` merges duplicates). -/
def make_gini_file (samples : List Frame) : Except PyErr (List GiniRow) :=
  mapExcept giniRowOf samples

/-- Embedding of `run` (lines 218-238): validation gate, the four
transform stages, then the coefficients table.  The returned pair is the
observable output (the frames `run` returns and the rows written to the
TSV); `make_graph` is plot I/O and is omitted. -/
def run (t : Table) : Except PyErr (List Frame × List GiniRow) :=
  if check_columns t then
    match remove_cumulative_abundance_over_one
        (calculate_cumulative_relative_abundance (sort_bins (remove_zeros t))) with
    | Except.error e => Except.error e
    | Except.ok s3 =>
      match make_gini_file (calculate_cumulative_prop_trf s3) with
      | Except.error e => Except.error e
      | Except.ok rows => Except.ok (calculate_cumulative_prop_trf s3, rows)
  else Except.error PyErr.validationExit

/-- The ranked (descending) abundance column of sample `j` after pruning
and before truncation: what `sort_bins` hands to the curve builder. -/
def rankedAbund (t : Table) (j : ℕ) : List ℚ :=
  (sortDesc (colPairs (remove_zeros t) j)).map Prod.snd

/-- The abundance values of sample `j` that actually reach the scorer:
the ranked column truncated at the first cumulative value over the
threshold. -/
def truncatedRankedAbund (t : Table) (j : ℕ) : List ℚ :=
  (rankedAbund t j).take (keepCount (cumRelAbundList (rankedAbund t j)))

/-- The pure value of one truncation iteration on a frame whose
`Cum Rel Abund` column is present (the only case `run` reaches):
`truncFrame (craStage f) = Except.ok (truncStage f)`. -/
def truncStage (f : Frame) : Frame :=
  let c := cumRelAbundList f.abund
  let k := keepCount c
  { f with bins := f.bins.take k
           abund := f.abund.take k
           cra := some (c.take k)
           cpt := f.cpt.map fun l => l.take k }

/-!
Post-state definitions for the aliasing behaviour of each stage: what the
object the caller passed in looks like after the call returns.  Python
passes the DataFrames by reference, so a stage that assigns into them is
visible to the caller; a stage that only reads them, or only calls
methods returning fresh objects (`drop`, `sort_values`, `to_frame`),
leaves them unchanged.
-/

/-- Caller-visible state of the table after `remove_zeros` returns:
`df.drop(row_index)` (line 58) returns a new frame each time, and
rebinding the local name `df` does not touch the caller's object. -/
def remove_zeros_post (t : Table) : Table := t

/-- Caller-visible state of the table after `sort_bins` returns: line 76
only reads `df` and builds fresh objects with `sort_values`/`to_frame`. -/
def sort_bins_post (t : Table) : Table := t

/-- Caller-visible state of the frame list after
`remove_cumulative_abundance_over_one` returns: the loop reads the input
frames and `new_frame.drop(row_index)` (line 151) returns copies, so the
input frames are never written. -/
def remove_cumulative_abundance_over_one_post (samples : List Frame) : List Frame :=
  samples

/-- Caller-visible state of the frame list after
`calculate_cumulative_relative_abundance` returns: the assignment
`sample['Cum Rel Abund'] = cum_rel_abund` (line 100) writes the new
column into each frame of the input list in place, and line 102 appends
those same objects to the returned list, so the caller's frames after the
call are the returned frames, not the originals. -/
def calculate_cumulative_relative_abundance_post (samples : List Frame) : List Frame :=
  calculate_cumulative_relative_abundance samples

/-- Caller-visible state of the frame list after
`calculate_cumulative_prop_trf` returns: the assignment
`sample['Cum Prop TRFs'] = cum_prop_trfs` (line 122) mutates the input
frames in place, exactly as on line 100. -/
def calculate_cumulative_prop_trf_post (samples : List Frame) : List Frame :=
  calculate_cumulative_prop_trf samples

/-!
Concrete inputs used by counterexamples and witnesses.
-/

/-- Junk default used with `List.getD` on frame lists. -/
def fjunk : Frame := { name := "", bins := [], abund := [], cra := none, cpt := none }

/-- Junk default used with `List.getD` on coefficient rows. -/
def gjunk : GiniRow := { title := "", gini := none, corrected := none, n := 0 }

/-- Two samples, three bins; sample `A` reaches cumulative abundance `1`
at its second bin, so truncation drops its third bin. -/
def tC1 : Table :=
  { names := ["A", "B"]
    rows := [⟨"b1", [3/5, 1/5]⟩, ⟨"b2", [2/5, 3/10]⟩, ⟨"b3", [0, 1/2]⟩] }

/-- The frames `run tC1` produces. -/
def s4C1 : List Frame :=
  [⟨"A", ["b1", "b2"], [3/5, 2/5], some [3/5, 1], some [1/2, 1]⟩,
   ⟨"B", ["b3", "b2", "b1"], [1/2, 3/10, 1/5], some [1/2, 4/5, 1], some [1/3, 2/3, 1]⟩]

/-- The coefficient rows `run tC1` produces. -/
def rowsC1 : List GiniRow :=
  [⟨"A", some (1/10), some (1/5), 2⟩, ⟨"B", some (1/5), some (3/10), 3⟩]

/-- A valid single-sample table whose only sample keeps exactly one bin,
the degenerate `n = 1` case. -/
def tC2 : Table := { names := ["A"], rows := [⟨"b1", [1]⟩] }

/-- A bare frame as produced by `sort_bins`, before any column is
appended. -/
def fW4 : Frame := { name := "A", bins := ["b1"], abund := [1], cra := none, cpt := none }

/-- A frame carrying a cumulative column whose first value already
exceeds the truncation threshold. -/
def fW5 : Frame :=
  { name := "A", bins := ["x", "y"], abund := [1, 0], cra := some [1, 1], cpt := none }

/-- A valid one-sample, two-bin table. -/
def tW6 : Table := { names := ["A"], rows := [⟨"b1", [1/2]⟩, ⟨"b2", [1/2]⟩] }

/-- The frame `run tW6` produces. -/
def fW6 : Frame :=
  { name := "A", bins := ["b1", "b2"], abund := [1/2, 1/2]
    cra := some [1/2, 1], cpt := some [1/2, 1] }

/-- The coefficient row `run tW6` produces. -/
def rW6 : GiniRow := { title := "A", gini := some 0, corrected := some 0, n := 2 }

/-- A singleton frame list with a two-row frame, input for the cumulative
abundance stage. -/
def sW7 : List Frame :=
  [{ name := "A", bins := ["b1", "b2"], abund := [1/2, 1/4], cra := none, cpt := none }]

/-- The frame the cumulative abundance stage produces from the frame in
`sW7`. -/
def fW7 : Frame :=
  { name := "A", bins := ["b1", "b2"], abund := [1/2, 1/4]
    cra := some [1/2, 3/4], cpt := none }

/-- A one-column table whose column sums to `1/2`: the validator must
reject it. -/
def tW8 : Table := { names := ["A"], rows := [⟨"b1", [1/2]⟩] }

/-- A two-sample table with non-negative entries and one all-zero row. -/
def tW10 : Table :=
  { names := ["A", "B"]
    rows := [⟨"b1", [1/2, 1]⟩, ⟨"b2", [0, 0]⟩, ⟨"b3", [1/2, 0]⟩] }

/-!
Helper lemmas.
-/

theorem mapExcept_ok_length {α β : Type} {f : α → Except PyErr β} :
    ∀ (l : List α) (ys : List β), mapExcept f l = Except.ok ys → ys.length = l.length := by
  intro l
  induction l with
  | nil =>
    intro ys h
    simp only [mapExcept, Except.ok.injEq] at h
    subst h
    rfl
  | cons a rest ih =>
    intro ys h
    unfold mapExcept at h
    cases hfa : f a with
    | error e => rw [hfa] at h; exact absurd h (by simp)
    | ok b =>
      rw [hfa] at h
      cases hrest : mapExcept f rest with
      | error e => rw [hrest] at h; exact absurd h (by simp)
      | ok bs =>
        rw [hrest] at h
        simp only [Except.ok.injEq] at h
        subst h
        simp [ih bs hrest]

theorem mapExcept_ok_getD {α β : Type} {f : α → Except PyErr β} (da : α) (db : β) :
    ∀ (l : List α) (ys : List β), mapExcept f l = Except.ok ys →
      ∀ j, j < l.length → f (l.getD j da) = Except.ok (ys.getD j db) := by
  intro l
  induction l with
  | nil => intro ys h j hj; simp at hj
  | cons a rest ih =>
    intro ys h j hj
    unfold mapExcept at h
    cases hfa : f a with
    | error e => rw [hfa] at h; exact absurd h (by simp)
    | ok b =>
      rw [hfa] at h
      cases hrest : mapExcept f rest with
      | error e => rw [hrest] at h; exact absurd h (by simp)
      | ok bs =>
        rw [hrest] at h
        simp only [Except.ok.injEq] at h
        subst h
        cases j with
        | zero => simpa using hfa
        | succ k =>
          simp only [List.getD_cons_succ]
          exact ih bs hrest k (by simpa using hj)

theorem mapExcept_map_ok {α β γ : Type} {f : β → Except PyErr γ} {h : α → β} {g : α → γ}
    (hfg : ∀ a, f (h a) = Except.ok (g a)) :
    ∀ l : List α, mapExcept f (l.map h) = Except.ok (l.map g) := by
  intro l
  induction l with
  | nil => rfl
  | cons a rest ih =>
    simp only [List.map_cons]
    unfold mapExcept
    rw [hfg a, ih]

theorem truncFrame_craStage (f : Frame) :
    truncFrame (craStage f) = Except.ok (truncStage f) := rfl

theorem stage3_eq (s : List Frame) :
    remove_cumulative_abundance_over_one (calculate_cumulative_relative_abundance s)
      = Except.ok (s.map truncStage) := by
  unfold remove_cumulative_abundance_over_one calculate_cumulative_relative_abundance
  exact mapExcept_map_ok truncFrame_craStage s

theorem run_ok_shape {t : Table} {s4 : List Frame} {rows : List GiniRow}
    (h : run t = Except.ok (s4, rows)) :
    check_columns t = true ∧
      s4 = calculate_cumulative_prop_trf ((sort_bins (remove_zeros t)).map truncStage) ∧
      make_gini_file s4 = Except.ok rows := by
  unfold run at h
  split at h
  case isTrue hc =>
    split at h
    case h_1 e heq => exact absurd h (by simp)
    case h_2 s3 heq =>
      rw [stage3_eq] at heq
      simp only [Except.ok.injEq] at heq
      subst heq
      split at h
      case h_1 e heq2 => exact absurd h (by simp)
      case h_2 rows2 heq2 =>
        simp only [Except.ok.injEq, Prod.mk.injEq] at h
        obtain ⟨h4, hr⟩ := h
        subst h4
        subst hr
        exact ⟨hc, rfl, heq2⟩
  case isFalse hc => exact absurd h (by simp)

theorem keepCount_of_all_le {c : List ℚ}
    (h : ∀ i, i < c.length → c.getD i 0 ≤ 999999/1000000) :
    keepCount c = c.length := by
  induction c with
  | nil => rfl
  | cons a rest ih =>
    have ha : a ≤ 999999/1000000 := by simpa using h 0 (by simp)
    rw [keepCount, if_neg (not_lt.mpr ha),
      ih fun i hi => by simpa using h (i+1) (by simpa using Nat.succ_lt_succ hi)]
    simp [Nat.add_comm]

theorem keepCount_of_first {c : List ℚ} {i : ℕ} (hi : i < c.length)
    (hgt : 999999/1000000 < c.getD i 0)
    (hbefore : ∀ j, j < i → c.getD j 0 ≤ 999999/1000000) :
    keepCount c = i + 1 := by
  induction c generalizing i with
  | nil => simp at hi
  | cons a rest ih =>
    cases i with
    | zero =>
      simp only [List.getD_cons_zero] at hgt
      rw [keepCount, if_pos hgt]
    | succ k =>
      have ha : a ≤ 999999/1000000 := by simpa using hbefore 0 (Nat.succ_pos k)
      rw [keepCount, if_neg (not_lt.mpr ha),
        ih (by simpa using hi) (by simpa using hgt)
          fun j hj => by simpa using hbefore (j+1) (Nat.succ_lt_succ hj)]
      omega

theorem cumRelAbundAux_length (acc : ℚ) (l : List ℚ) :
    (cumRelAbundAux acc l).length = l.length := by
  induction l generalizing acc with
  | nil => rfl
  | cons a rest ih => simp [cumRelAbundAux, ih]

theorem cumRelAbundAux_getD_succ (acc : ℚ) (l : List ℚ) (j : ℕ) (hj : j + 1 < l.length) :
    (cumRelAbundAux acc l).getD (j+1) 0
      = l.getD (j+1) 0 + (cumRelAbundAux acc l).getD j 0 := by
  induction l generalizing acc j with
  | nil => simp at hj
  | cons a rest ih =>
    cases j with
    | zero =>
      cases rest with
      | nil => simp at hj
      | cons b rest2 =>
        simp only [cumRelAbundAux, List.getD_cons_succ, List.getD_cons_zero]
        ring
    | succ k =>
      simp only [cumRelAbundAux, List.getD_cons_succ]
      exact ih (acc + a) k (by simpa using hj)

theorem cumPropTrfsList_length (m : ℕ) : (cumPropTrfsList m).length = m := by
  simp [cumPropTrfsList]

theorem cumPropTrfsList_getD (m i : ℕ) (h : i < m) :
    (cumPropTrfsList m).getD i 0 = ((i : ℚ) + 1) / (m : ℚ) := by
  rw [List.getD_eq_getElem _ _ (by simpa [cumPropTrfsList] using h)]
  simp [cumPropTrfsList]

theorem cumPropTrfsList_getLast (m : ℕ) (hm : m ≠ 0) :
    (cumPropTrfsList m).getLast? = some 1 := by
  obtain ⟨k, rfl⟩ := Nat.exists_eq_succ_of_ne_zero hm
  rw [cumPropTrfsList, List.range_succ, List.map_append]
  simp only [List.map_cons, List.map_nil, List.getLast?_concat]
  have : ((k : ℚ) + 1) / ((k : ℚ) + 1 : ℚ) = 1 := div_self (by positivity)
  rw [Option.some.injEq]
  push_cast
  exact this

theorem list_sum_eq_zero_iff {l : List ℚ} (h : ∀ v ∈ l, 0 ≤ v) :
    l.sum = 0 ↔ ∀ v ∈ l, v = 0 := by
  induction l with
  | nil => simp
  | cons a rest ih =>
    have h0 : 0 ≤ a := h a (by simp)
    have hr : ∀ v ∈ rest, 0 ≤ v := fun v hv => h v (by simp [hv])
    rw [List.forall_mem_cons, List.sum_cons,
      add_eq_zero_iff_of_nonneg h0 (List.sum_nonneg hr), ih hr]

theorem getD_map_of_lt {α β : Type} (f : α → β) {l : List α} {j : ℕ}
    (hj : j < l.length) (da : α) (db : β) :
    (l.map f).getD j db = f (l.getD j da) := by
  rw [List.getD_eq_getElem _ _ (by simpa using hj), List.getD_eq_getElem _ _ hj,
    List.getElem_map]

/-!
Claim theorems.
-/

/-- C8: `check_columns` accepts a table exactly when every sample
column's sum lies in the closed interval `[0.9999, 1.0001]`; a column
summing outside that interval is rejected. -/
theorem validator_accepts_iff (t : Table) :
    check_columns t = true ↔
      ∀ j, j < t.names.length →
        (9999/10000 : ℚ) ≤ colSum t j ∧ colSum t j ≤ 10001/10000 := by
  rw [check_columns, List.all_eq_true]
  constructor
  · intro h j hj
    have h2 := h j (List.mem_range.mpr hj)
    simpa using h2
  · intro h j hjmem
    have h2 := h j (List.mem_range.mp hjmem)
    rw [if_neg]
    push_neg
    exact ⟨h2.1, h2.2⟩

/-- C8 witness: the iff evaluated at the concrete table `tW8`, whose only
column sums to `1/2` and is rejected. -/
theorem validator_accepts_iff_witness :
    check_columns tW8 = true ↔
      ∀ j, j < tW8.names.length →
        (9999/10000 : ℚ) ≤ colSum tW8 j ∧ colSum tW8 j ≤ 10001/10000 :=
  validator_accepts_iff tW8

/-- C9: the embedded pipeline is a pure function of the input table, so
two runs on the same input give identical frames and coefficients. -/
theorem pipeline_deterministic (t : Table) : run t = run t := rfl

/-- C10: on a table of non-negative values, `remove_zeros` keeps the
column set and returns exactly the input rows with the all-zero rows
deleted, in original order and with unchanged values. -/
theorem pruner_filters_zero_rows (t : Table)
    (h : ∀ r ∈ t.rows, ∀ v ∈ r.vals, 0 ≤ v) :
    (remove_zeros t).names = t.names ∧
    (remove_zeros t).rows = t.rows.filter fun r => !decide (∀ v ∈ r.vals, v = 0) := by
  refine ⟨rfl, ?_⟩
  unfold remove_zeros
  exact List.filter_congr fun r hr =>
    congrArg (fun b => !b) (decide_eq_decide.mpr (list_sum_eq_zero_iff (h r hr)))

/-- C10 witness: the pruner applied to the concrete non-negative table
`tW10`, which contains one all-zero row. -/
theorem pruner_filters_zero_rows_witness :
    (∀ r ∈ tW10.rows, ∀ v ∈ r.vals, 0 ≤ v) ∧
    ((remove_zeros tW10).names = tW10.names ∧
      (remove_zeros tW10).rows
        = tW10.rows.filter fun r => !decide (∀ v ∈ r.vals, v = 0)) :=
  ⟨by norm_num [tW10], pruner_filters_zero_rows tW10 (by norm_num [tW10])⟩

/-- C2: the claim asks that a sample with `n ≤ 1` retained bins not
crash the scorer; on the valid one-bin table `tC2` the run passes
validation and then aborts with the `ZeroDivisionError` raised by
`len(col) / (len(col) - 1)`, so no sentinel is produced and no further
sample would be processed. -/
theorem degenerate_sample_crashes :
    check_columns tC2 = true ∧ run tC2 = Except.error PyErr.zeroDivision := by
  constructor
  · norm_num [check_columns, tC2, colSum, List.range_succ]
  · norm_num [run, tC2, check_columns, colSum, remove_zeros, rowSum, sort_bins, frameOf,
      colPairs, sortDesc, insertDesc, calculate_cumulative_relative_abundance, craStage,
      cumRelAbundList, cumRelAbundAux, remove_cumulative_abundance_over_one, mapExcept,
      truncFrame, keepCount, calculate_cumulative_prop_trf, cptStage, cumPropTrfsList,
      make_gini_file, giniRowOf, calculate_gini, List.range_succ, abs_of_nonneg,
      abs_sub_comm]

/-- C5: on a frame whose cumulative column `c` is present (with rows of
matching length and no proportion column yet), truncation keeps the
first position of `c` over `0.999999` and everything before it and drops
everything after; when no position exceeds the threshold the frame is
returned unmodified and no error is raised. -/
theorem truncation_correct (f : Frame) (c : List ℚ)
    (hc : f.cra = some c) (hb : f.bins.length = c.length)
    (ha : f.abund.length = c.length) (hp : f.cpt = none) :
    ((∀ i, i < c.length → c.getD i 0 ≤ 999999/1000000) →
        remove_cumulative_abundance_over_one [f] = Except.ok [f]) ∧
    (∀ i, i < c.length → 999999/1000000 < c.getD i 0 →
      (∀ j, j < i → c.getD j 0 ≤ 999999/1000000) →
      remove_cumulative_abundance_over_one [f] = Except.ok
        [{ f with bins := f.bins.take (i+1)
                  abund := f.abund.take (i+1)
                  cra := some (c.take (i+1))
                  cpt := none }]) := by
  obtain ⟨nm, bs, ab, cr, cp⟩ := f
  simp only at hc hb ha hp
  subst hc
  subst hp
  constructor
  · intro hle
    simp only [remove_cumulative_abundance_over_one, mapExcept, truncFrame]
    rw [keepCount_of_all_le hle, List.take_of_length_le hb.le,
      List.take_of_length_le ha.le, List.take_of_length_le le_rfl]
    rfl
  · intro i hi hgt hbef
    simp only [remove_cumulative_abundance_over_one, mapExcept, truncFrame]
    rw [keepCount_of_first hi hgt hbef]
    rfl

/-- C5 witness: truncation of the concrete frame `fW5`, whose cumulative
column `[1, 1]` first exceeds the threshold at position `0`, keeps
exactly the first row. -/
theorem truncation_correct_witness :
    remove_cumulative_abundance_over_one [fW5] = Except.ok
      [{ fW5 with bins := fW5.bins.take 1
                  abund := fW5.abund.take 1
                  cra := some (([1, 1] : List ℚ).take 1)
                  cpt := none }] :=
  (truncation_correct fW5 [1, 1] rfl rfl rfl rfl).2 0 (by simp)
    (by norm_num) (fun j hj => absurd hj (Nat.not_lt_zero j))

/-- C6: every frame produced by `run` carries a `Cum Prop TRFs` column
computed over the truncated frame: its length is the truncated row count
`m`, its value at `0`-indexed position `i` is `(i+1)/m`, and for a
non-empty frame its last value is exactly `1`. -/
theorem cum_prop_trf_after_truncation {t : Table} {s4 : List Frame}
    {rows : List GiniRow} (h : run t = Except.ok (s4, rows))
    (f : Frame) (hf : f ∈ s4) :
    ∃ l, f.cpt = some l ∧ l.length = f.abund.length ∧
      (∀ i, i < f.abund.length →
        l.getD i 0 = ((i : ℚ) + 1) / (f.abund.length : ℚ)) ∧
      (f.abund ≠ [] → l.getLast? = some 1) := by
  obtain ⟨-, hs4, -⟩ := run_ok_shape h
  subst hs4
  obtain ⟨x, hx, rfl⟩ := List.mem_map.mp hf
  refine ⟨cumPropTrfsList x.abund.length, rfl,
    cumPropTrfsList_length x.abund.length, ?_, ?_⟩
  · intro i hi
    exact cumPropTrfsList_getD x.abund.length i hi
  · intro hne
    have hz : x.abund.length ≠ 0 := by
      simpa [List.length_eq_zero] using hne
    exact cumPropTrfsList_getLast x.abund.length hz

/-- C6 witness: the run on the concrete table `tW6` produces the frame
`fW6`, whose proportion column is `[1/2, 1]` with last value `1`. -/
theorem cum_prop_trf_after_truncation_witness :
    ∃ l, fW6.cpt = some l ∧ l.length = fW6.abund.length ∧
      (∀ i, i < fW6.abund.length →
        l.getD i 0 = ((i : ℚ) + 1) / (fW6.abund.length : ℚ)) ∧
      (fW6.abund ≠ [] → l.getLast? = some 1) :=
  cum_prop_trf_after_truncation
    (show run tW6 = Except.ok ([fW6], [rW6]) by
      norm_num [run, tW6, fW6, rW6, check_columns, colSum, remove_zeros, rowSum,
        sort_bins, frameOf, colPairs, sortDesc, insertDesc,
        calculate_cumulative_relative_abundance, craStage, cumRelAbundList,
        cumRelAbundAux, remove_cumulative_abundance_over_one, mapExcept, truncFrame,
        keepCount, calculate_cumulative_prop_trf, cptStage, cumPropTrfsList,
        make_gini_file, giniRowOf, calculate_gini, List.range_succ, abs_of_nonneg,
        abs_sub_comm])
    fW6 (by simp)

/-- C7: every frame produced by the cumulative abundance stage is an
input frame with a new `Cum Rel Abund` column of the same length whose
entry `0` equals `abund[0]` and whose entry `i+1` equals
`abund[i+1]` plus entry `i`. -/
theorem cum_rel_abund_recurrence (samples : List Frame) (f : Frame)
    (hf : f ∈ calculate_cumulative_relative_abundance samples) :
    ∃ g ∈ samples, f.abund = g.abund ∧
      f.cra = some (cumRelAbundList g.abund) ∧
      (cumRelAbundList g.abund).length = g.abund.length ∧
      (0 < g.abund.length →
        (cumRelAbundList g.abund).getD 0 0 = g.abund.getD 0 0) ∧
      (∀ i, i + 1 < g.abund.length →
        (cumRelAbundList g.abund).getD (i+1) 0
          = g.abund.getD (i+1) 0 + (cumRelAbundList g.abund).getD i 0) := by
  obtain ⟨g, hg, rfl⟩ := List.mem_map.mp hf
  refine ⟨g, hg, rfl, rfl, cumRelAbundAux_length 0 g.abund, ?_, ?_⟩
  · intro hpos
    cases habund : g.abund with
    | nil => rw [habund] at hpos; simp at hpos
    | cons a rest =>
      simp [cumRelAbundList, cumRelAbundAux]
  · intro i hi1
    exact cumRelAbundAux_getD_succ 0 g.abund i hi1

/-- C7 witness: the stage applied to the concrete singleton list `sW7`
produces `fW7`, whose cumulative column is `[1/2, 3/4]`. -/
theorem cum_rel_abund_recurrence_witness :
    ∃ g ∈ sW7, fW7.abund = g.abund ∧
      fW7.cra = some (cumRelAbundList g.abund) ∧
      (cumRelAbundList g.abund).length = g.abund.length ∧
      (0 < g.abund.length →
        (cumRelAbundList g.abund).getD 0 0 = g.abund.getD 0 0) ∧
      (∀ i, i + 1 < g.abund.length →
        (cumRelAbundList g.abund).getD (i+1) 0
          = g.abund.getD (i+1) 0 + (cumRelAbundList g.abund).getD i 0) :=
  cum_rel_abund_recurrence sW7 fW7
    (by norm_num [sW7, fW7, calculate_cumulative_relative_abundance, craStage,
      cumRelAbundList, cumRelAbundAux])

/-- C1 counterexample: on `tC1` the run succeeds, but the reported `n`
for sample `A` is `2`, the row count after truncation, not the count `3`
of bins after pruning, and the reported Gini differs from the Gini of
the untruncated ranked abundances of `A`. -/
theorem gini_input_truncated_cex :
    run tC1 = Except.ok (s4C1, rowsC1) ∧
    (rowsC1.getD 0 gjunk).n = 2 ∧
    (remove_zeros tC1).rows.length = 3 ∧
    (rowsC1.getD 0 gjunk).gini ≠ calculate_gini (rankedAbund tC1 0) := by
  refine ⟨?_, by norm_num [rowsC1, gjunk], by norm_num [remove_zeros, tC1, rowSum], ?_⟩
  · norm_num [run, tC1, s4C1, rowsC1, check_columns, colSum, remove_zeros, rowSum,
      sort_bins, frameOf, colPairs, sortDesc, insertDesc,
      calculate_cumulative_relative_abundance, craStage, cumRelAbundList,
      cumRelAbundAux, remove_cumulative_abundance_over_one, mapExcept, truncFrame,
      keepCount, calculate_cumulative_prop_trf, cptStage, cumPropTrfsList,
      make_gini_file, giniRowOf, calculate_gini, List.range_succ, abs_of_nonneg,
      abs_sub_comm]
  · have hg : calculate_gini (rankedAbund tC1 0) = some (2/5) := by
      norm_num [tC1, rankedAbund, remove_zeros, rowSum, colPairs, sortDesc, insertDesc,
        calculate_gini, abs_of_nonneg, abs_sub_comm]
    rw [hg]
    norm_num [rowsC1, gjunk]

/-- C1 as amended: for every table on which `run` succeeds, the Gini
coefficient of each sample is computed over the *truncated* ranked
abundances of that sample, and both the reported `n` and the `n` in the
bias correction equal the row count *after* truncation. -/
theorem gini_over_truncated_abundances {t : Table} {s4 : List Frame}
    {rows : List GiniRow} (h : run t = Except.ok (s4, rows))
    (j : ℕ) (hj : j < rows.length) :
    (rows.getD j gjunk).gini = calculate_gini (truncatedRankedAbund t j) ∧
    (rows.getD j gjunk).corrected
      = Option.map (fun v => v * (((truncatedRankedAbund t j).length : ℚ)
          / (((truncatedRankedAbund t j).length : ℚ) - 1)))
          (calculate_gini (truncatedRankedAbund t j)) ∧
    (rows.getD j gjunk).n = (truncatedRankedAbund t j).length := by
  obtain ⟨-, hs4, hrows⟩ := run_ok_shape h
  subst hs4
  have hlen := mapExcept_ok_length
    (calculate_cumulative_prop_trf ((sort_bins (remove_zeros t)).map truncStage))
    rows hrows
  have hj4 : j < (calculate_cumulative_prop_trf
      ((sort_bins (remove_zeros t)).map truncStage)).length := hlen ▸ hj
  have hpt := mapExcept_ok_getD fjunk gjunk
    (calculate_cumulative_prop_trf ((sort_bins (remove_zeros t)).map truncStage))
    rows hrows j hj4
  have hjs : j < ((sort_bins (remove_zeros t)).map truncStage).length := by
    simpa [calculate_cumulative_prop_trf] using hj4
  have hjb : j < (sort_bins (remove_zeros t)).length := by simpa using hjs
  have hjr : j < (List.range (remove_zeros t).names.length).length := by
    simpa [sort_bins] using hjb
  have hframe : (calculate_cumulative_prop_trf
      ((sort_bins (remove_zeros t)).map truncStage)).getD j fjunk
      = cptStage (truncStage (frameOf (remove_zeros t) j)) := by
    rw [calculate_cumulative_prop_trf, getD_map_of_lt cptStage hjs fjunk fjunk,
      getD_map_of_lt truncStage hjb fjunk fjunk, sort_bins,
      getD_map_of_lt (frameOf (remove_zeros t)) hjr 0 fjunk,
      List.getD_eq_getElem _ _ hjr, List.getElem_range]
  rw [hframe] at hpt
  rw [giniRowOf] at hpt
  split at hpt
  · exact absurd hpt (by simp)
  · simp only [Except.ok.injEq] at hpt
    rw [← hpt]
    exact ⟨rfl, rfl, rfl⟩

/-- C1 witness: the amended statement evaluated on the concrete table
`tC1` at sample `A`. -/
theorem gini_over_truncated_abundances_witness :
    (rowsC1.getD 0 gjunk).gini = calculate_gini (truncatedRankedAbund tC1 0) ∧
    (rowsC1.getD 0 gjunk).corrected
      = Option.map (fun v => v * (((truncatedRankedAbund tC1 0).length : ℚ)
          / (((truncatedRankedAbund tC1 0).length : ℚ) - 1)))
          (calculate_gini (truncatedRankedAbund tC1 0)) ∧
    (rowsC1.getD 0 gjunk).n = (truncatedRankedAbund tC1 0).length :=
  gini_over_truncated_abundances
    (show run tC1 = Except.ok (s4C1, rowsC1) by
      norm_num [run, tC1, s4C1, rowsC1, check_columns, colSum, remove_zeros, rowSum,
        sort_bins, frameOf, colPairs, sortDesc, insertDesc,
        calculate_cumulative_relative_abundance, craStage, cumRelAbundList,
        cumRelAbundAux, remove_cumulative_abundance_over_one, mapExcept, truncFrame,
        keepCount, calculate_cumulative_prop_trf, cptStage, cumPropTrfsList,
        make_gini_file, giniRowOf, calculate_gini, List.range_succ, abs_of_nonneg,
        abs_sub_comm])
    0 (by norm_num [rowsC1])

/-- C4 counterexample: the cumulative abundance stage does not leave its
input unchanged from the caller's perspective: the frames in the list the
caller passed in have gained the new column after the call. -/
theorem stage_mutation_cex :
    calculate_cumulative_relative_abundance_post [fW4] ≠ [fW4] := by
  intro h
  have h2 := congrArg (fun l => (l.headD fjunk).cra) h
  simp [calculate_cumulative_relative_abundance_post,
    calculate_cumulative_relative_abundance, craStage, fW4] at h2

/-- C4 as amended: the validator, pruner, ranker and truncation stages
leave their inputs unchanged from the caller's perspective, but the two
column-appending stages of the curve builder mutate the frames of the
input list in place: after the call the caller's frames are the returned
ones, which differ from the originals whenever a frame did not already
carry the column. -/
theorem stage_mutation_profile (t : Table) (s : List Frame) (f : Frame)
    (hf : f ∈ s) (hcra : f.cra = none) :
    remove_zeros_post t = t ∧ sort_bins_post t = t ∧
    remove_cumulative_abundance_over_one_post s = s ∧
    calculate_cumulative_relative_abundance_post s
        = calculate_cumulative_relative_abundance s ∧
    calculate_cumulative_prop_trf_post s = calculate_cumulative_prop_trf s ∧
    calculate_cumulative_relative_abundance_post s ≠ s := by
  refine ⟨rfl, rfl, rfl, rfl, rfl, ?_⟩
  intro heq
  obtain ⟨i, hi, hgi⟩ := List.mem_iff_getElem.mp hf
  have h2 := congrArg (fun l => l[i]?) heq
  simp only [calculate_cumulative_relative_abundance_post,
    calculate_cumulative_relative_abundance, List.getElem?_map] at h2
  rw [List.getElem?_eq_getElem hi, hgi] at h2
  simp only [Option.map_some', Option.some.injEq] at h2
  have h3 := congrArg Frame.cra h2
  simp [craStage, hcra] at h3

/-- C4 witness: the amended statement evaluated at the concrete table
`tW8` and the concrete one-frame list `[fW4]`, whose frame has no
cumulative column yet. -/
theorem stage_mutation_profile_witness :
    remove_zeros_post tW8 = tW8 ∧ sort_bins_post tW8 = tW8 ∧
    remove_cumulative_abundance_over_one_post [fW4] = [fW4] ∧
    calculate_cumulative_relative_abundance_post [fW4]
        = calculate_cumulative_relative_abundance [fW4] ∧
    calculate_cumulative_prop_trf_post [fW4] = calculate_cumulative_prop_trf [fW4] ∧
    calculate_cumulative_relative_abundance_post [fW4] ≠ [fW4] :=
  stage_mutation_profile tW8 [fW4] fW4 (by simp) rfl

end PLCurve
